import Mathlib

/-!
Verification of the P9 whisky listings dashboard (`app.py`).

The program loads rows from a SQLite table `market_prices` ordered by
primary key descending, derives a parsed date column
(`pd.to_datetime(..., format='%Y/%m/%d', errors='coerce').dt.date`),
applies four optional filters (keyword, seller, date range, price range)
and reports total count, filtered count and an integer average price.

The shallow embedding below models the dataframe as a `List Row`, the
database relation as a `List DbRow` (with the `id` primary key), and each
filter stage as a Lean function mirroring the corresponding lines of
`app.py`.
-/

namespace P9

/-- A calendar date, the result of parsing `post_date`. -/
structure Date where
  year : Nat
  month : Nat
  day : Nat
  deriving DecidableEq

/-- `datetime.date` ordering: lexicographic on (year, month, day).
Boolean so it can be used inside pandas-style boolean masks. -/
def dateLe (a b : Date) : Bool :=
  decide (a.year < b.year ∨ (a.year = b.year ∧
    (a.month < b.month ∨ (a.month = b.month ∧ a.day ≤ b.day))))

/-- Gregorian leap-year rule, as used by `datetime`. -/
def isLeap (y : Nat) : Bool :=
  (y % 4 == 0 && y % 100 != 0) || y % 400 == 0

/-- Number of days in a month, as validated by `datetime`. -/
def daysInMonth (y m : Nat) : Nat :=
  if m == 2 then (if isLeap y then 29 else 28)
  else if m == 4 || m == 6 || m == 9 || m == 11 then 30
  else 31

/-- Split a character list on the `/` separator (models splitting the
`post_date` string at the literal `/` of the format `%Y/%m/%d`). -/
def splitSlash : List Char → List (List Char)
  | [] => [[]]
  | c :: cs =>
    let r := splitSlash cs
    if c == '/' then [] :: r
    else
      match r with
      | [] => [[c]]
      | h :: t => (c :: h) :: t

/-- Numeric value of a list of decimal digit characters. -/
def digitsToNat (l : List Char) : Nat :=
  l.foldl (fun a c => a * 10 + (c.toNat - 48)) 0

/-- Every character is a decimal digit and the list is non-empty. -/
def allDigits (l : List Char) : Bool :=
  !l.isEmpty && l.all (fun c => c.isDigit)

/-- `pd.to_datetime(s, format='%Y/%m/%d', errors='coerce').dt.date` for a
single cell: the whole string must match the format exactly (`%Y` a
four-digit year, `%m` a one- or two-digit month, `%d` a one- or two-digit
day) and denote a valid calendar date; any failure coerces to an absent
value (`none`) instead of raising. -/
def parseDate (s : String) : Option Date :=
  match splitSlash s.toList with
  | [ys, ms, ds] =>
    if allDigits ys && allDigits ms && allDigits ds
        && ys.length == 4 && ms.length ≤ 2 && ds.length ≤ 2 then
      let y := digitsToNat ys
      let m := digitsToNat ms
      let d := digitsToNat ds
      if 1 ≤ m && m ≤ 12 && 1 ≤ d && d ≤ daysInMonth y m then
        some ⟨y, m, d⟩
      else none
    else none
  | _ => none

/-- ASCII lower-casing of one character, modelling the case folding that
`re.IGNORECASE` performs on the ASCII range; every other character is
left unchanged. -/
def lowerChar (c : Char) : Char :=
  match c with
  | 'A' => 'a' | 'B' => 'b' | 'C' => 'c' | 'D' => 'd' | 'E' => 'e' | 'F' => 'f'
  | 'G' => 'g' | 'H' => 'h' | 'I' => 'i' | 'J' => 'j' | 'K' => 'k' | 'L' => 'l'
  | 'M' => 'm' | 'N' => 'n' | 'O' => 'o' | 'P' => 'p' | 'Q' => 'q' | 'R' => 'r'
  | 'S' => 's' | 'T' => 't' | 'U' => 'u' | 'V' => 'v' | 'W' => 'w' | 'X' => 'x'
  | 'Y' => 'y' | 'Z' => 'z' | c => c

/-- A string as a lower-cased character list. -/
def lcString (s : String) : List Char := s.data.map lowerChar

/-- `p` matches literally at the front of `t`. -/
def matchLit : List Char → List Char → Bool
  | [], _ => true
  | _ :: _, [] => false
  | p :: ps, c :: cs => p == c && matchLit ps cs

/-- `needle` occurs as a contiguous sublist of the haystack
(plain substring search; the behaviour the spec ascribes to the keyword
filter). -/
def hasSub (needle : List Char) : List Char → Bool
  | [] => matchLit needle []
  | c :: cs => matchLit needle (c :: cs) || hasSub needle cs

/-- Case-insensitive substring test: the spec's reading of
"case-insensitive substring match". -/
def strContainsCI (hay needle : String) : Bool :=
  hasSub (lcString needle) (lcString hay)

/-- Regex prefix match for the fragment of Python regular expressions in
which the only metacharacter is `.` (any single character); every other
character matches itself. This covers every pattern that contains no
regex metacharacter, plus patterns built from literals and `.`. -/
def reMatchAt : List Char → List Char → Bool
  | [], _ => true
  | _ :: _, [] => false
  | p :: ps, c :: cs => (p == '.' || p == c) && reMatchAt ps cs

/-- `re.search` for the same fragment: the pattern may match at any
position of the text. -/
def reSearchL (p : List Char) : List Char → Bool
  | [] => reMatchAt p []
  | c :: cs => reMatchAt p (c :: cs) || reSearchL p cs

/-- `pandas.Series.str.contains(pat, case=False)` for a single cell.
pandas treats `pat` as a regular expression (`regex=True` is the
default) and `case=False` adds `re.IGNORECASE`; modelled here by
lower-casing both sides and running the fragment regex search. -/
def reSearch (pat s : String) : Bool :=
  reSearchL (lcString pat) (lcString s)

/-- The characters that are metacharacters of Python regular
expressions; a pattern avoiding all of them is matched literally. -/
def regexSpecials : List Char :=
  ['.', '^', '$', '*', '+', '?', '{', '}', '[', ']', '\\', '|', '(', ')']

/-- A row of the `market_prices` relation as stored in the database,
including the `id` primary key used only for ordering. -/
structure DbRow where
  id : Nat
  post_date : String
  title : String
  author : String
  product_name : String
  price : Int
  link : String
  deriving DecidableEq

/-- A row of the loaded dataframe: the selected columns plus the derived
`post_date_dt` column. -/
structure Row where
  post_date : String
  title : String
  author : String
  product_name : String
  price : Int
  link : String
  post_date_dt : Option Date
  deriving DecidableEq

/-- Column selection plus the derived date column of `load_data`. -/
def toRow (r : DbRow) : Row :=
  { post_date := r.post_date
    title := r.title
    author := r.author
    product_name := r.product_name
    price := r.price
    link := r.link
    post_date_dt := parseDate r.post_date }

/-- Insert a row into a list sorted by descending `id`. -/
def insertDesc (x : DbRow) : List DbRow → List DbRow
  | [] => [x]
  | y :: ys => if y.id ≤ x.id then x :: y :: ys else y :: insertDesc x ys

/-- `ORDER BY id DESC` of the query in `load_data`. -/
def sortByIdDesc : List DbRow → List DbRow
  | [] => []
  | x :: xs => insertDesc x (sortByIdDesc xs)

/-- `load_data()`: read all rows ordered by `id` descending and derive
`post_date_dt` for each. -/
def load_data (db : List DbRow) : List Row :=
  (sortByIdDesc db).map toRow

/-- The sidebar state consumed by the filter pass: the two text inputs,
the date range returned by `st.date_input` (a tuple of 0, 1 or 2 dates,
modelled as a list), and the price slider value. -/
structure Criteria where
  keyword : String
  author_keyword : String
  date_range : List Date
  price_range : Int × Int
  deriving DecidableEq

/-- Filter stage A of `app.py`: when `keyword` is non-empty, keep the
rows where the keyword regex-matches `product_name` or `title`,
case-insensitively. -/
def keywordFilter (kw : String) (l : List Row) : List Row :=
  if kw = "" then l
  else l.filter (fun r => reSearch kw r.product_name || reSearch kw r.title)

/-- Filter stage B: when `author_keyword` is non-empty, keep the rows
where it regex-matches `author`, case-insensitively. -/
def authorFilter (ak : String) (l : List Row) : List Row :=
  if ak = "" then l
  else l.filter (fun r => reSearch ak r.author)

/-- Filter stage C: only when the date range holds exactly two dates,
keep the rows whose `post_date_dt` lies inclusively between them; a row
whose `post_date_dt` is absent compares false on both bounds (pandas
`NaT` comparisons) and is dropped. -/
def dateFilter (dr : List Date) (l : List Row) : List Row :=
  if dr.length = 2 then
    match dr with
    | [s, e] =>
      l.filter (fun r =>
        match r.post_date_dt with
        | some d => dateLe s d && dateLe d e
        | none => false)
    | _ => l
  else l

/-- Filter stage D: applied whenever the loaded dataframe is non-empty;
keep the rows whose price lies inclusively within the slider value. -/
def priceFilter (dfEmpty : Bool) (pr : Int × Int) (l : List Row) : List Row :=
  if dfEmpty then l
  else l.filter (fun r => pr.1 ≤ r.price && r.price ≤ pr.2)

/-- The whole filter pass of `app.py` (stages A, B, C, D in program
order, starting from `df.copy()`). -/
def applyFilters (df : List Row) (c : Criteria) : List Row :=
  priceFilter df.isEmpty c.price_range
    (dateFilter c.date_range
      (authorFilter c.author_keyword
        (keywordFilter c.keyword df)))

/-- `len(df)`, the first KPI metric. -/
def totalCount (df : List Row) : Nat := df.length

/-- `len(filtered_df)`, the second KPI metric. -/
def filteredCount (df : List Row) (c : Criteria) : Nat :=
  (applyFilters df c).length

/-- Sum of the `price` column. -/
def sumPrices (l : List Row) : Int := (l.map (fun r => r.price)).sum

/-- `int(filtered_df['price'].mean())` guarded by the emptiness check:
Python's `int()` truncates the mean toward zero, and the empty branch
displays `$0`. -/
def avgPrice (l : List Row) : Int :=
  if l.isEmpty then 0 else Int.tdiv (sumPrices l) (l.length : Int)

/-- The exact rational mean of the `price` column, used to compare the
code's integer average against the spec's `round(mean(...))`. -/
def meanRat (l : List Row) : ℚ :=
  (sumPrices l : ℚ) / (l.length : ℚ)

/-- Pick the earlier of two dates. -/
def dMin (a b : Date) : Date := if dateLe a b then a else b

/-- Pick the later of two dates. -/
def dMax (a b : Date) : Date := if dateLe a b then b else a

/-- The parsed dates present in the dataframe
(`df['post_date_dt']` with nulls skipped, as `.min()`/`.max()` do). -/
def datesOf (l : List Row) : List Date :=
  l.filterMap (fun r => r.post_date_dt)

/-- The default value of the date picker: when the dataframe is
non-empty and some date parsed, `(min_date, max_date)` over the parsed
dates; otherwise `date_range = []`. -/
def defaultDateRange (l : List Row) : List Date :=
  match datesOf l with
  | [] => []
  | d :: ds => [ds.foldl dMin d, ds.foldl dMax d]

/-- `int(df['price'].max())` (0 is never used: callers guard on
non-emptiness). -/
def maxPrice : List Row → Int
  | [] => 0
  | r :: rs => rs.foldl (fun a x => max a x.price) r.price

/-- `slider_max = min(db_max_price, 100000)`. -/
def sliderMax (l : List Row) : Int := min (maxPrice l) 100000

/-- The criteria produced by the sidebar when the user touches nothing:
empty keyword and seller, the default date range, and the price slider
at its default `(0, slider_max)` (or `(0, 0)` for an empty dataframe). -/
def defaultCriteria (df : List Row) : Criteria :=
  { keyword := ""
    author_keyword := ""
    date_range := defaultDateRange df
    price_range := if df.isEmpty then (0, 0) else (0, sliderMax df) }

/-- What one page render displays: either the full page (table, total
count, filtered count, average price) or the single error message. -/
inductive RenderOutput where
  | page (rows : List Row) (total filtered : Nat) (avg : Int) : RenderOutput
  | errorMsg (msg : String) : RenderOutput
  deriving DecidableEq

/-- The prefix of the error message built by the `except` handler. -/
def errPrefix : String := "系統錯誤，請確認資料庫狀態。錯誤訊息: "

/-- The `try`/`except` body of `app.py`: load (which may fail), filter,
and compute the KPI metrics; any load failure is caught once at the top
and turned into a single error message carrying the underlying error
text, with none of the page widgets rendered. -/
def renderPage (loadResult : Except String (List DbRow)) (c : Criteria) :
    RenderOutput :=
  match loadResult with
  | Except.error e => RenderOutput.errorMsg (errPrefix ++ e)
  | Except.ok db =>
    let df := load_data db
    let filtered := applyFilters df c
    RenderOutput.page filtered (totalCount df) filtered.length (avgPrice filtered)

/-- The total-count metric shown by a render, when a page was shown. -/
def pageTotal : RenderOutput → Option Nat
  | RenderOutput.page _ t _ _ => some t
  | RenderOutput.errorMsg _ => none

/-! ### Helper lemmas about the date order -/

theorem dateLe_iff {a b : Date} : dateLe a b = true ↔
    (a.year < b.year ∨ (a.year = b.year ∧
      (a.month < b.month ∨ (a.month = b.month ∧ a.day ≤ b.day)))) := by
  simp [dateLe]

theorem dateLe_refl (a : Date) : dateLe a a = true := by
  rw [dateLe_iff]; omega

theorem dateLe_trans {a b c : Date} (h1 : dateLe a b = true)
    (h2 : dateLe b c = true) : dateLe a c = true := by
  rw [dateLe_iff] at h1 h2 ⊢; omega

theorem dateLe_total (a b : Date) : dateLe a b = true ∨ dateLe b a = true := by
  rw [dateLe_iff, dateLe_iff]; omega

theorem dMin_le (d a : Date) :
    dateLe (dMin d a) d = true ∧ dateLe (dMin d a) a = true := by
  unfold dMin
  by_cases hda : dateLe d a = true
  · rw [if_pos hda]
    exact ⟨dateLe_refl d, hda⟩
  · rw [if_neg hda]
    rcases dateLe_total d a with h | h
    · exact absurd h hda
    · exact ⟨h, dateLe_refl a⟩

theorem le_dMax (d a : Date) :
    dateLe d (dMax d a) = true ∧ dateLe a (dMax d a) = true := by
  unfold dMax
  by_cases hda : dateLe d a = true
  · rw [if_pos hda]
    exact ⟨hda, dateLe_refl a⟩
  · rw [if_neg hda]
    rcases dateLe_total d a with h | h
    · exact absurd h hda
    · exact ⟨dateLe_refl d, h⟩

theorem foldl_dMin_spec : ∀ (ds : List Date) (d : Date),
    dateLe (ds.foldl dMin d) d = true ∧
      ∀ x ∈ ds, dateLe (ds.foldl dMin d) x = true := by
  intro ds
  induction ds with
  | nil => intro d; exact ⟨dateLe_refl d, by simp⟩
  | cons a as ih =>
    intro d
    have h := ih (dMin d a)
    have hdm := dMin_le d a
    simp only [List.foldl_cons]
    refine ⟨dateLe_trans h.1 hdm.1, ?_⟩
    intro x hx
    rcases List.mem_cons.1 hx with rfl | hx'
    · exact dateLe_trans h.1 hdm.2
    · exact h.2 x hx'

theorem foldl_dMax_spec : ∀ (ds : List Date) (d : Date),
    dateLe d (ds.foldl dMax d) = true ∧
      ∀ x ∈ ds, dateLe x (ds.foldl dMax d) = true := by
  intro ds
  induction ds with
  | nil => intro d; exact ⟨dateLe_refl d, by simp⟩
  | cons a as ih =>
    intro d
    have h := ih (dMax d a)
    have hdm := le_dMax d a
    simp only [List.foldl_cons]
    refine ⟨dateLe_trans hdm.1 h.1, ?_⟩
    intro x hx
    rcases List.mem_cons.1 hx with rfl | hx'
    · exact dateLe_trans hdm.2 h.1
    · exact h.2 x hx'

/-! ### Helper lemmas about the maximum price -/

theorem foldl_max_price_spec : ∀ (l : List Row) (acc : Int),
    acc ≤ l.foldl (fun a x => max a x.price) acc ∧
      ∀ r ∈ l, r.price ≤ l.foldl (fun a x => max a x.price) acc := by
  intro l
  induction l with
  | nil => intro acc; exact ⟨le_refl acc, by simp⟩
  | cons a as ih =>
    intro acc
    have h := ih (max acc a.price)
    simp only [List.foldl_cons]
    refine ⟨le_trans (le_max_left _ _) h.1, ?_⟩
    intro r hr
    rcases List.mem_cons.1 hr with rfl | hr'
    · exact le_trans (le_max_right _ _) h.1
    · exact h.2 r hr'

theorem le_maxPrice {r : Row} : ∀ {l : List Row}, r ∈ l → r.price ≤ maxPrice l := by
  intro l hr
  match l with
  | [] => cases hr
  | a :: as =>
    rcases List.mem_cons.1 hr with rfl | hr'
    · exact (foldl_max_price_spec as r.price).1
    · exact (foldl_max_price_spec as a.price).2 r hr'

/-! ### Helper lemmas about the load order -/

theorem mem_insertDesc {x y : DbRow} : ∀ {l : List DbRow},
    y ∈ insertDesc x l ↔ y = x ∨ y ∈ l := by
  intro l
  induction l with
  | nil => simp [insertDesc]
  | cons a as ih =>
    simp only [insertDesc]
    split
    · simp [List.mem_cons]
    · simp only [List.mem_cons, ih]
      tauto

theorem pairwise_insertDesc {x : DbRow} : ∀ {l : List DbRow},
    List.Pairwise (fun a b => b.id ≤ a.id) l →
    List.Pairwise (fun a b => b.id ≤ a.id) (insertDesc x l) := by
  intro l
  induction l with
  | nil => intro _; simp [insertDesc]
  | cons a as ih =>
    intro hp
    rw [List.pairwise_cons] at hp
    simp only [insertDesc]
    split
    · rw [List.pairwise_cons]
      refine ⟨?_, List.pairwise_cons.2 hp⟩
      intro y hy
      rcases List.mem_cons.1 hy with rfl | hy'
      · assumption
      · exact le_trans (hp.1 y hy') (by assumption)
    · rw [List.pairwise_cons]
      refine ⟨?_, ih hp.2⟩
      intro y hy
      rcases mem_insertDesc.1 hy with rfl | hy'
      · omega
      · exact hp.1 y hy'

theorem sorted_sortByIdDesc (db : List DbRow) :
    List.Pairwise (fun a b => b.id ≤ a.id) (sortByIdDesc db) := by
  induction db with
  | nil => simp [sortByIdDesc]
  | cons a as ih => exact pairwise_insertDesc ih

theorem perm_insertDesc (x : DbRow) : ∀ (l : List DbRow),
    List.Perm (insertDesc x l) (x :: l) := by
  intro l
  induction l with
  | nil => simp [insertDesc]
  | cons a as ih =>
    simp only [insertDesc]
    split
    · exact List.Perm.refl _
    · exact (ih.cons a).trans (List.Perm.swap x a as)

theorem perm_sortByIdDesc (db : List DbRow) :
    List.Perm (sortByIdDesc db) db := by
  induction db with
  | nil => exact List.Perm.refl _
  | cons a as ih => exact (perm_insertDesc a (sortByIdDesc as)).trans (ih.cons a)

/-! ### Helper lemmas: the regex fragment degenerates to substring search
on metacharacter-free patterns -/

theorem lowerChar_eq_dot {c : Char} (h : lowerChar c = '.') : c = '.' := by
  unfold lowerChar at h
  split at h <;> simp_all

theorem reMatchAt_eq_matchLit {p : List Char} (hp : '.' ∉ p) :
    ∀ t, reMatchAt p t = matchLit p t := by
  induction p with
  | nil => intro t; rfl
  | cons pc ps ih =>
    intro t
    cases t with
    | nil => rfl
    | cons c cs =>
      have hpc : pc ≠ '.' := fun h => hp (h ▸ List.mem_cons_self pc ps)
      have h2 : '.' ∉ ps := fun h => hp (List.mem_cons_of_mem pc h)
      simp only [reMatchAt, matchLit, ih h2]
      have hb : (pc == '.') = false := beq_eq_false_iff_ne.2 hpc
      rw [hb, Bool.false_or]

theorem reSearchL_eq_hasSub {p : List Char} (hp : '.' ∉ p) :
    ∀ t, reSearchL p t = hasSub p t := by
  intro t
  induction t with
  | nil => simp only [reSearchL, hasSub, reMatchAt_eq_matchLit hp]
  | cons c cs ih => simp only [reSearchL, hasSub, reMatchAt_eq_matchLit hp, ih]

theorem dot_not_mem_lcString {kw : String}
    (h : ∀ ch ∈ kw.data, ch ∉ regexSpecials) : '.' ∉ lcString kw := by
  intro hmem
  rcases List.mem_map.1 hmem with ⟨c, hc, hlc⟩
  have hcd : c = '.' := lowerChar_eq_dot hlc
  subst hcd
  exact h '.' hc (by simp [regexSpecials])

/-- On a keyword free of regex metacharacters, the pandas containment
test coincides with case-insensitive substring search. -/
theorem reSearch_eq_strContainsCI {kw : String}
    (h : ∀ ch ∈ kw.data, ch ∉ regexSpecials) (s : String) :
    reSearch kw s = strContainsCI s kw := by
  unfold reSearch strContainsCI
  exact reSearchL_eq_hasSub (dot_not_mem_lcString h) (lcString s)

/-! ### Helper lemmas about the filter stages -/

theorem keywordFilter_sublist (kw : String) (l : List Row) :
    List.Sublist (keywordFilter kw l) l := by
  unfold keywordFilter
  split
  · exact List.Sublist.refl l
  · exact List.filter_sublist l

theorem authorFilter_sublist (ak : String) (l : List Row) :
    List.Sublist (authorFilter ak l) l := by
  unfold authorFilter
  split
  · exact List.Sublist.refl l
  · exact List.filter_sublist l

theorem dateFilter_sublist (dr : List Date) (l : List Row) :
    List.Sublist (dateFilter dr l) l := by
  unfold dateFilter
  split
  · split
    · exact List.filter_sublist l
    · exact List.Sublist.refl l
  · exact List.Sublist.refl l

theorem priceFilter_sublist (b : Bool) (pr : Int × Int) (l : List Row) :
    List.Sublist (priceFilter b pr l) l := by
  unfold priceFilter
  split
  · exact List.Sublist.refl l
  · exact List.filter_sublist l

theorem applyFilters_sublist (df : List Row) (c : Criteria) :
    List.Sublist (applyFilters df c) df := by
  unfold applyFilters
  exact ((priceFilter_sublist _ _ _).trans
    ((dateFilter_sublist _ _).trans
      ((authorFilter_sublist _ _).trans (keywordFilter_sublist _ _))))

theorem dateFilter_not_two {dr : List Date} (h : dr.length ≠ 2)
    (l : List Row) : dateFilter dr l = l := by
  unfold dateFilter
  rw [if_neg h]

theorem mem_dateFilter_two {s e : Date} {l : List Row} {r : Row} :
    r ∈ dateFilter [s, e] l ↔
      r ∈ l ∧ ∃ d, r.post_date_dt = some d ∧
        dateLe s d = true ∧ dateLe d e = true := by
  unfold dateFilter
  rw [if_pos (by rfl)]
  rw [List.mem_filter]
  constructor
  · rintro ⟨hmem, hpred⟩
    refine ⟨hmem, ?_⟩
    cases hdt : r.post_date_dt with
    | none => rw [hdt] at hpred; cases hpred
    | some d =>
      rw [hdt] at hpred
      simp only [Bool.and_eq_true] at hpred
      exact ⟨d, rfl, hpred.1, hpred.2⟩
  · rintro ⟨hmem, d, hdt, h1, h2⟩
    refine ⟨hmem, ?_⟩
    rw [hdt]
    simp [h1, h2]

theorem mem_priceFilter {pr : Int × Int} {l : List Row} {r : Row} :
    r ∈ priceFilter false pr l ↔
      r ∈ l ∧ pr.1 ≤ r.price ∧ r.price ≤ pr.2 := by
  unfold priceFilter
  rw [if_neg (by simp)]
  rw [List.mem_filter]
  simp [Bool.and_eq_true, decide_eq_true_eq]

theorem keywordFilter_empty_kw (l : List Row) : keywordFilter "" l = l := by
  simp [keywordFilter]

theorem authorFilter_empty_kw (l : List Row) : authorFilter "" l = l := by
  simp [authorFilter]

theorem applyFilters_nil (c : Criteria) : applyFilters [] c = [] :=
  List.sublist_nil.1 (applyFilters_sublist [] c)

theorem dateFilter_default_all_none {l : List Row}
    (h : ∀ r ∈ l, r.post_date_dt = none) :
    dateFilter (defaultDateRange l) l = l := by
  have hd : datesOf l = [] := List.filterMap_eq_nil_iff.2 h
  have hdr : defaultDateRange l = [] := by
    unfold defaultDateRange
    rw [hd]
  rw [hdr]
  exact dateFilter_not_two (by simp) l

theorem dateFilter_default_all_some {r : Row} {rs : List Row}
    (h : ∀ a ∈ r :: rs, (a.post_date_dt).isSome = true) :
    dateFilter (defaultDateRange (r :: rs)) (r :: rs) = r :: rs := by
  rcases Option.isSome_iff_exists.1 (h r (List.mem_cons_self r rs)) with ⟨d0, hd0⟩
  have hdf : datesOf (r :: rs) = d0 :: datesOf rs := by
    unfold datesOf
    rw [List.filterMap_cons, hd0]
  have hdr : defaultDateRange (r :: rs) =
      [(datesOf rs).foldl dMin d0, (datesOf rs).foldl dMax d0] := by
    unfold defaultDateRange
    rw [hdf]
  rw [hdr]
  unfold dateFilter
  have hlen : ([(datesOf rs).foldl dMin d0,
      (datesOf rs).foldl dMax d0] : List Date).length = 2 := rfl
  rw [if_pos hlen]
  apply List.filter_eq_self.2
  intro a ha
  rcases Option.isSome_iff_exists.1 (h a ha) with ⟨da, hda⟩
  have hmem : da ∈ datesOf (r :: rs) :=
    List.mem_filterMap.2 ⟨a, ha, hda⟩
  rw [hdf] at hmem
  have hmin : dateLe ((datesOf rs).foldl dMin d0) da = true := by
    have hs := foldl_dMin_spec (datesOf rs) d0
    rcases List.mem_cons.1 hmem with rfl | hm
    · exact hs.1
    · exact hs.2 da hm
  have hmax : dateLe da ((datesOf rs).foldl dMax d0) = true := by
    have hs := foldl_dMax_spec (datesOf rs) d0
    rcases List.mem_cons.1 hmem with rfl | hm
    · exact hs.1
    · exact hs.2 da hm
  rw [hda]
  simp [hmin, hmax]

theorem priceFilter_default_id {l : List Row}
    (hprice : ∀ r ∈ l, 0 ≤ r.price ∧ r.price ≤ 100000) :
    priceFilter false (0, sliderMax l) l = l := by
  unfold priceFilter
  rw [if_neg (by simp)]
  apply List.filter_eq_self.2
  intro a ha
  have h1 := (hprice a ha).1
  have h2 : a.price ≤ sliderMax l := by
    unfold sliderMax
    exact le_min (le_maxPrice ha) (hprice a ha).2
  simp [h1, h2]

/-! ### Concrete sample data for witnesses and counterexamples -/

/-- A stored row whose `post_date` parses. -/
def drow1 : DbRow :=
  ⟨1, "2024/01/01", "Macallan 12", "alice88", "Macallan 12", 3000, "L1"⟩

/-- A stored row whose `post_date` does not parse. -/
def drow2 : DbRow :=
  ⟨2, "not a date", "Hibiki 17", "bob99", "Hibiki 17", 12000, "L2"⟩

/-- A loaded row with a parsed date. -/
def rowA : Row :=
  ⟨"2024/01/01", "Macallan 12", "alice88", "Macallan 12", 3000, "L1",
    some ⟨2024, 1, 1⟩⟩

/-- A loaded row with a parsed date and a higher price. -/
def rowB : Row :=
  ⟨"2024/06/01", "Hibiki 17", "bob99", "Hibiki 17", 12000, "L2",
    some ⟨2024, 6, 1⟩⟩

/-- A loaded row with an unparsed date and dot-free text fields. -/
def rowC : Row := ⟨"xx", "abc", "seller", "xyz", 50, "L3", none⟩

/-- A loaded row with price 1. -/
def rowP1 : Row := ⟨"2024/01/01", "t1", "a1", "p1", 1, "l1", none⟩

/-- A loaded row with price 2. -/
def rowP2 : Row := ⟨"2024/01/02", "t2", "a2", "p2", 2, "l2", none⟩

/-- Criteria whose keyword is the regex metacharacter `.` alone. -/
def critDot : Criteria := ⟨".", "", [], (0, 100000)⟩

/-- Criteria with no keyword and the default price range of `[rowB]`. -/
def critB : Criteria := ⟨"", "", [], (0, 12000)⟩

/-! ### Claim theorems -/

/-- C1 counterexample: on a load containing one row whose `post_date`
parses and one whose does not, the sidebar's default criteria (default
date range = the min/max of the parsed dates) already exclude the
unparseable row, so filtering with no user-supplied constraints is not
the identity on the loaded data. -/
theorem c1_counterexample :
    applyFilters (load_data [drow1, drow2])
      (defaultCriteria (load_data [drow1, drow2])) ≠
      load_data [drow1, drow2] := by decide

/-- C1 (amended): filtering with the sidebar's default criteria is the
identity on the loaded data — with `filtered_count = total_count` —
provided every price lies in `[0, 100000]` (so the default slider cap
removes nothing) and either every row's `post_date` parsed or none did
(so the default date range removes nothing). -/
theorem c1_default_filter_identity (df : List Row)
    (hprice : ∀ r ∈ df, 0 ≤ r.price ∧ r.price ≤ 100000)
    (hdates : (∀ r ∈ df, (r.post_date_dt).isSome = true) ∨
      (∀ r ∈ df, r.post_date_dt = none)) :
    applyFilters df (defaultCriteria df) = df ∧
      filteredCount df (defaultCriteria df) = totalCount df := by
  have main : applyFilters df (defaultCriteria df) = df := by
    cases df with
    | nil => exact applyFilters_nil _
    | cons r rs =>
      have hdate : dateFilter (defaultDateRange (r :: rs)) (r :: rs) =
          r :: rs := by
        rcases hdates with h | h
        · exact dateFilter_default_all_some h
        · exact dateFilter_default_all_none h
      show priceFilter false (0, sliderMax (r :: rs))
          (dateFilter (defaultDateRange (r :: rs))
            (authorFilter "" (keywordFilter "" (r :: rs)))) = r :: rs
      rw [keywordFilter_empty_kw, authorFilter_empty_kw, hdate]
      exact priceFilter_default_id hprice
  refine ⟨main, ?_⟩
  unfold filteredCount totalCount
  rw [main]

/-- C1 witness: on a two-row load where both dates parse and both prices
are within the cap, the default criteria keep everything. -/
theorem c1_witness :
    applyFilters [rowA, rowB] (defaultCriteria [rowA, rowB]) = [rowA, rowB] ∧
      filteredCount [rowA, rowB] (defaultCriteria [rowA, rowB]) =
        totalCount [rowA, rowB] :=
  c1_default_filter_identity [rowA, rowB] (by decide) (Or.inl (by decide))

/-- C2 counterexample: on two rows with prices 1 and 2 the mean is 3/2;
the code reports `int(mean) = 1` while `round(mean) = 2`, so the
reported average is not the rounded mean. -/
theorem c2_counterexample :
    avgPrice [rowP1, rowP2] ≠ round (meanRat [rowP1, rowP2]) := by
  have h1 : avgPrice [rowP1, rowP2] = 1 := by decide
  have h2 : meanRat [rowP1, rowP2] = 3 / 2 := by
    norm_num [meanRat, sumPrices, rowP1, rowP2]
  rw [h1, h2]
  norm_num [round_eq]

/-- C2 (amended): for every non-empty filtered result with non-negative
prices, the reported average is the integer mean obtained by truncation
toward zero — the floor of the exact rational mean — and for an empty
result it is 0 (no division by zero). -/
theorem c2_average_price_floor (l : List Row) :
    (l ≠ [] → (∀ r ∈ l, 0 ≤ r.price) → avgPrice l = ⌊meanRat l⌋) ∧
      avgPrice [] = 0 := by
  constructor
  · intro hne hpos
    have hff : l.isEmpty = false := List.isEmpty_eq_false.2 hne
    unfold avgPrice meanRat
    rw [if_neg (by simp [hff])]
    have hsum : 0 ≤ sumPrices l := by
      unfold sumPrices
      apply List.sum_nonneg
      intro x hx
      rcases List.mem_map.1 hx with ⟨r, hr, rfl⟩
      exact hpos r hr
    rw [Rat.floor_intCast_div_natCast]
    exact Int.tdiv_eq_ediv hsum (Int.natCast_nonneg l.length)
  · rfl

/-- C2 witness: on a single row of price 2 the average equals the floor
of the mean. -/
theorem c2_witness : avgPrice [rowP2] = ⌊meanRat [rowP2]⌋ :=
  (c2_average_price_floor [rowP2]).1 (by decide) (by decide)

/-- C3 counterexample: with keyword `.` (a regex metacharacter), the row
with title `abc` and product name `xyz` survives the keyword filter even
though `.` is a case-insensitive substring of neither field — pandas
interprets the keyword as a regular expression, so survival is not
equivalent to substring occurrence. -/
theorem c3_counterexample :
    rowC ∈ keywordFilter "." [rowC] ∧
      strContainsCI rowC.title "." = false ∧
      strContainsCI rowC.product_name "." = false := by decide

/-- C3 (amended): for every non-empty keyword containing no regex
metacharacter, a row survives the keyword filter iff the keyword occurs
as a case-insensitive substring of its title or of its product name; in
general the keyword is interpreted as a regular expression. -/
theorem c3_keyword_filter_substring (kw : String) (l : List Row) (r : Row)
    (hne : kw ≠ "")
    (hmeta : ∀ ch ∈ kw.data, ch ∉ regexSpecials) :
    r ∈ keywordFilter kw l ↔
      r ∈ l ∧ (strContainsCI r.title kw = true ∨
        strContainsCI r.product_name kw = true) := by
  unfold keywordFilter
  rw [if_neg hne]
  simp only [List.mem_filter, reSearch_eq_strContainsCI hmeta,
    Bool.or_eq_true]
  tauto

/-- C3 witness: keyword `macallan` (no metacharacters) matches the row
whose product name is `Macallan 12`, case-insensitively. -/
theorem c3_witness :
    rowA ∈ keywordFilter "macallan" [rowA] ↔
      rowA ∈ [rowA] ∧ (strContainsCI rowA.title "macallan" = true ∨
        strContainsCI rowA.product_name "macallan" = true) :=
  c3_keyword_filter_substring "macallan" [rowA] rowA (by decide) (by decide)

/-- C4: the date filter is the identity unless the date range holds
exactly two bounds; when it does, a row survives iff its parsed date
exists and lies inclusively within `[start, end]` — rows whose
`post_date` failed to parse are excluded exactly then. -/
theorem c4_date_filter (l : List Row) (s e : Date) :
    (∀ r, r ∈ dateFilter [s, e] l ↔
        (r ∈ l ∧ ∃ d, r.post_date_dt = some d ∧
          dateLe s d = true ∧ dateLe d e = true)) ∧
      ∀ dr : List Date, dr.length ≠ 2 → dateFilter dr l = l :=
  ⟨fun _ => mem_dateFilter_two, fun _ h => dateFilter_not_two h l⟩

/-- C4 witness: with an active range the unparsed row `rowC` is dropped
while `rowA` is kept; with no range supplied nothing is dropped. -/
theorem c4_witness :
    (rowC ∈ dateFilter [⟨2024, 1, 1⟩, ⟨2024, 12, 31⟩] [rowA, rowC] ↔
      (rowC ∈ [rowA, rowC] ∧ ∃ d, rowC.post_date_dt = some d ∧
        dateLe ⟨2024, 1, 1⟩ d = true ∧ dateLe d ⟨2024, 12, 31⟩ = true)) ∧
      dateFilter [] [rowA, rowC] = [rowA, rowC] :=
  ⟨(c4_date_filter [rowA, rowC] ⟨2024, 1, 1⟩ ⟨2024, 12, 31⟩).1 rowC,
   (c4_date_filter [rowA, rowC] ⟨2024, 1, 1⟩ ⟨2024, 12, 31⟩).2 [] (by decide)⟩

/-- C5: the price filter keeps a row iff its price lies inclusively
between the two bounds (rows at either bound survive), and the default
price range of a non-empty load is `(0, min(max_price_in_data, 100000))`. -/
theorem c5_price_filter (l : List Row) :
    (∀ (pr : Int × Int) (r : Row), r ∈ priceFilter false pr l ↔
        (r ∈ l ∧ pr.1 ≤ r.price ∧ r.price ≤ pr.2)) ∧
      (l ≠ [] → (defaultCriteria l).price_range =
        (0, min (maxPrice l) 100000)) := by
  constructor
  · intro pr r
    exact mem_priceFilter
  · intro hne
    unfold defaultCriteria sliderMax
    simp [List.isEmpty_eq_false.2 hne]

/-- C5 witness: a row whose price equals the upper bound is kept, and
the default range of `[rowB]` is `(0, min 12000 100000)`. -/
theorem c5_witness :
    (rowB ∈ priceFilter false (0, 12000) [rowB] ↔
      (rowB ∈ [rowB] ∧ (0 : Int) ≤ rowB.price ∧ rowB.price ≤ 12000)) ∧
      (defaultCriteria [rowB]).price_range = (0, min (maxPrice [rowB]) 100000) :=
  ⟨(c5_price_filter [rowB]).1 (0, 12000) rowB,
   (c5_price_filter [rowB]).2 (by decide)⟩

/-- C6: `load_data` returns the stored rows ordered by descending `id`
(most recent insertion first) as a permutation of the store — no row is
dropped — and each returned row's normalized date is the (possibly
failing, never raising) parse of its `post_date`. -/
theorem c6_load_data (db : List DbRow) :
    List.Pairwise (fun a b => b.id ≤ a.id) (sortByIdDesc db) ∧
      List.Perm (sortByIdDesc db) db ∧
      (load_data db).length = db.length ∧
      ∀ r ∈ load_data db, r.post_date_dt = parseDate r.post_date := by
  refine ⟨sorted_sortByIdDesc db, perm_sortByIdDesc db, ?_, ?_⟩
  · unfold load_data
    rw [List.length_map]
    exact (perm_sortByIdDesc db).length_eq
  · intro r hr
    unfold load_data at hr
    rcases List.mem_map.1 hr with ⟨x, _, rfl⟩
    rfl

/-- C6 witness: the loaded version of `drow2`, whose `post_date` fails
to parse, still appears in the result with an absent normalized date. -/
theorem c6_witness :
    (toRow drow2).post_date_dt = parseDate (toRow drow2).post_date :=
  (c6_load_data [drow1, drow2]).2.2.2 (toRow drow2) (by decide)

/-- C7: a failing load is caught once at the top level and rendered as
the single error message carrying the underlying error text, with no
page content; a successful load always renders the full page — so
malformed date strings, coerced to absent during load, never reach the
handler. -/
theorem c7_error_boundary :
    (∀ (e : String) (c : Criteria), ∃ msg,
        renderPage (Except.error e) c = RenderOutput.errorMsg msg ∧
          msg = errPrefix ++ e) ∧
      ∀ (db : List DbRow) (c : Criteria), ∃ rows total filtered avg,
        renderPage (Except.ok db) c =
          RenderOutput.page rows total filtered avg := by
  constructor
  · intro e c
    exact ⟨errPrefix ++ e, rfl, rfl⟩
  · intro db c
    exact ⟨_, _, _, _, rfl⟩

/-- C8: for a non-empty load the slider's maximum is capped at 100000,
and since any selectable price range stays below the slider maximum and
the price filter is always applied to a non-empty load, no listing with
price above 100000 can appear in the filtered result. -/
theorem c8_price_cap (df : List Row) (c : Criteria) (hne : df ≠ [])
    (hc : c.price_range.2 ≤ sliderMax df) :
    sliderMax df ≤ 100000 ∧ ∀ r ∈ applyFilters df c, r.price ≤ 100000 := by
  refine ⟨min_le_right _ _, ?_⟩
  intro r hr
  unfold applyFilters at hr
  rw [List.isEmpty_eq_false.2 hne] at hr
  exact le_trans (mem_priceFilter.1 hr).2.2 (le_trans hc (min_le_right _ _))

/-- C8 witness: on the single-row load `[rowB]` with its default price
range, every filtered row's price is within the cap. -/
theorem c8_witness :
    sliderMax [rowB] ≤ 100000 ∧
      ∀ r ∈ applyFilters [rowB] critB, r.price ≤ 100000 :=
  c8_price_cap [rowB] critB (by decide) (by decide)

/-- C9: under every combination of criteria the filtered result is an
order-preserving subsequence of the loaded data (each stage only removes
rows), so every output row is an input row and
`filtered_count ≤ total_count`. -/
theorem c9_filtered_subsequence (df : List Row) (c : Criteria) :
    List.Sublist (applyFilters df c) df ∧
      filteredCount df c ≤ totalCount df :=
  ⟨applyFilters_sublist df c, (applyFilters_sublist df c).length_le⟩

/-- C10: the filter pass never changes the loaded table, so the reported
total count is the loaded length and is the same for every choice of
criteria over the same load. -/
theorem c10_total_count_frame (db : List DbRow) (ca cb : Criteria) :
    pageTotal (renderPage (Except.ok db) ca) =
        pageTotal (renderPage (Except.ok db) cb) ∧
      pageTotal (renderPage (Except.ok db) ca) =
        some (load_data db).length :=
  ⟨rfl, rfl⟩

end P9
